import Mathlib

/-!
Shallow embedding of the moment-closure reconstruction and error-metric core of
the neuralEntropyClosures repository.

Embedded modules:
* `src/src/utils.py` — `kl_divergence_loss` with its inner `reconstruct_alpha`
  and `kl_divergence` (TensorFlow tensors become `Fin`-indexed real arrays;
  `tf.debugging.check_numerics` becomes an `Except` wrapper over a float-value
  type distinguishing finite values from NaN and infinities).
* `src/experimental/errorAnalysis.py` — `relDifferenceScalar` and
  `relDifference` (numpy arrays become lists; numpy 1-D broadcasting of the
  final division is modelled explicitly, returning `none` on a shape mismatch).
* `src/python/neuralClosures/configModel.py` — `initNeuralClosure` (Python
  exception flow becomes `Except`; exception objects that the source constructs
  without raising are collected in a discard list).
-/

namespace NeuralEntropyClosures

/-! ## Float values for `tf.debugging.check_numerics` -/

/-- A floating-point value as far as finiteness checking is concerned:
either a finite real number, NaN, or one of the two infinities. -/
inductive FpVal where
  | fin (x : ℝ)
  | nan
  | posInf
  | negInf

/-- A value is finite exactly when it carries a real number. -/
def FpVal.isFinite : FpVal → Bool
  | .fin _ => true
  | _ => false

/-- The real number carried by a finite value (junk `0` otherwise). -/
noncomputable def FpVal.toReal : FpVal → ℝ
  | .fin x => x
  | _ => 0

/-- Error raised by `tf.debugging.check_numerics` when a tensor contains
NaN or infinite entries (`NumericalInstabilityError` in the spec). -/
inductive NumericalInstabilityError where
  | checkNumericsFailed (msg : String)

/-- `tf.debugging.check_numerics`: fail if any entry of the batch is NaN or
infinite, otherwise pass the (finite) values through unchanged. -/
noncomputable def check_numerics {ns N : ℕ} (x : Fin ns → Fin N → FpVal) (msg : String) :
    Except NumericalInstabilityError (Fin ns → Fin N → ℝ) :=
  if ∀ s i, (x s i).isFinite then .ok (fun s i => (x s i).toReal)
  else .error (.checkNumericsFailed msg)

/-! ## `kl_divergence_loss` from `src/src/utils.py`

`m_b` is the moment basis evaluated at the quadrature points, of shape
(basis size × number of quadrature points); with reduced multiplier length `N`
the basis has `N + 1` rows.  `q_w` are the quadrature weights. -/

/-- `tf.clip_by_value t lo hi = min (max t lo) hi`. -/
def clipValue (lo hi x : ℝ) : ℝ := min (max x lo) hi

/-- `reconstruct_alpha` (inner function of `kl_divergence_loss`): clip the
reduced multipliers to `[-50, 50]`, form `tmp k = exp (Σ_i clipped_i · m_b[i+1,k])`,
set `alpha_0 = - log (Σ_k tmp k · q_w k)`, and return the concatenation
`[alpha_0, alpha]` — note the tail is the original `alpha`, not the clipped one. -/
noncomputable def reconstruct_alpha {ns N nq : ℕ} (m_b : Fin (N + 1) → Fin nq → ℝ)
    (q_w : Fin nq → ℝ) (alpha : Fin ns → Fin N → ℝ) : Fin ns → Fin (N + 1) → ℝ :=
  fun s =>
    Fin.cons
      (- Real.log (∑ k, Real.exp (∑ i, clipValue (-50) 50 (alpha s i) * m_b i.succ k) * q_w k))
      (alpha s)

/-- `kl_divergence` (inner function of `kl_divergence_loss`): complete both
batches, take `diff`, `t1 = exp (alpha_true_recon · m_b)`, `t2 = diff · m_b`,
multiply elementwise and integrate against the quadrature weights.
One scalar per sample; no aggregation across the batch. -/
noncomputable def kl_divergence {ns N nq : ℕ} (m_b : Fin (N + 1) → Fin nq → ℝ)
    (q_w : Fin nq → ℝ) (y_true y_pred : Fin ns → Fin N → ℝ) : Fin ns → ℝ :=
  fun s =>
    let alpha_true_recon := reconstruct_alpha m_b q_w y_true s
    let alpha_pred_recon := reconstruct_alpha m_b q_w y_pred s
    let diff := fun i => alpha_true_recon i - alpha_pred_recon i
    let t1 := fun k => Real.exp (∑ i, alpha_true_recon i * m_b i k)
    let t2 := fun k => ∑ i, diff i * m_b i k
    ∑ k, (t1 k * t2 k) * q_w k

/-- `reconstruct_alpha` including the `tf.debugging.check_numerics` step on its
input batch, as executed by the source. -/
noncomputable def reconstruct_alpha_checked {ns N nq : ℕ} (m_b : Fin (N + 1) → Fin nq → ℝ)
    (q_w : Fin nq → ℝ) (alpha : Fin ns → Fin N → FpVal) :
    Except NumericalInstabilityError (Fin ns → Fin (N + 1) → ℝ) := do
  let checked ← check_numerics alpha ("input tensor checking error")
  return reconstruct_alpha m_b q_w checked

/-- `kl_divergence` including the finiteness checks that `reconstruct_alpha`
performs on each of its two inputs. -/
noncomputable def kl_divergence_checked {ns N nq : ℕ} (m_b : Fin (N + 1) → Fin nq → ℝ)
    (q_w : Fin nq → ℝ) (y_true y_pred : Fin ns → Fin N → FpVal) :
    Except NumericalInstabilityError (Fin ns → ℝ) := do
  let t ← check_numerics y_true ("input tensor checking error")
  let p ← check_numerics y_pred ("input tensor checking error")
  return kl_divergence m_b q_w t p

/-- C1: `kl_divergence` computes, per sample `s`,
`Σ_k q_w[k] · exp((true_full[s] · m_b)[k]) · ((true_full[s] − pred_full[s]) · m_b)[k]`,
where `true_full`/`pred_full` are the completed multiplier batches; the result is
one scalar per sample (the return type is indexed by the sample axis and no sum
or mean over samples is taken). -/
theorem kl_divergence_pointwise {ns N nq : ℕ} (m_b : Fin (N + 1) → Fin nq → ℝ)
    (q_w : Fin nq → ℝ) (y_true y_pred : Fin ns → Fin N → ℝ) (s : Fin ns) :
    kl_divergence m_b q_w y_true y_pred s =
      ∑ k, q_w k * Real.exp (∑ i, reconstruct_alpha m_b q_w y_true s i * m_b i k) *
        (∑ i, (reconstruct_alpha m_b q_w y_true s i - reconstruct_alpha m_b q_w y_pred s i)
          * m_b i k) := by
  unfold kl_divergence
  exact Finset.sum_congr rfl fun k _ => by ring

/-- C2: the leading coordinate of the completed multiplier vector is
`alpha_0 = − log (Σ_k q_w[k] · exp (Σ_i clipped_alpha_i · m_b[i+1, k]))`,
where the inner sum runs over the rows of `m_b` excluding row 0. -/
theorem reconstruct_alpha_leading {ns N nq : ℕ} (m_b : Fin (N + 1) → Fin nq → ℝ)
    (q_w : Fin nq → ℝ) (alpha : Fin ns → Fin N → ℝ) (s : Fin ns) :
    reconstruct_alpha m_b q_w alpha s 0 =
      - Real.log (∑ k, q_w k *
        Real.exp (∑ i, clipValue (-50) 50 (alpha s i) * m_b i.succ k)) := by
  unfold reconstruct_alpha
  rw [Fin.cons_zero]
  congr 1
  exact congrArg Real.log (Finset.sum_congr rfl fun k _ => by ring)

/-- C5: the divergence loss of a batch against itself vanishes at every sample. -/
theorem kl_divergence_self {ns N nq : ℕ} (m_b : Fin (N + 1) → Fin nq → ℝ)
    (q_w : Fin nq → ℝ) (y : Fin ns → Fin N → ℝ) (s : Fin ns) :
    kl_divergence m_b q_w y y s = 0 := by
  unfold kl_divergence
  simp

/-! ### C3: the returned tail is the original, not the clipped, multipliers -/

/-- Helper: indexing the completed vector at a successor index yields the
original input entry (the concatenation `[alpha_0, alpha]` keeps `alpha`). -/
lemma reconstruct_alpha_succ_eq {ns N nq : ℕ} (m_b : Fin (N + 1) → Fin nq → ℝ)
    (q_w : Fin nq → ℝ) (alpha : Fin ns → Fin N → ℝ) (s : Fin ns) (i : Fin N) :
    reconstruct_alpha m_b q_w alpha s i.succ = alpha s i := by
  unfold reconstruct_alpha
  exact Fin.cons_succ _ _ _

/-- Concrete basis for the C3 counterexample: two rows, one quadrature point. -/
def mbC3 : Fin 2 → Fin 1 → ℝ := fun _ _ => 1

/-- Concrete quadrature weight for the C3 counterexample. -/
def qwC3 : Fin 1 → ℝ := fun _ => 1

/-- Concrete reduced multiplier batch for the C3 counterexample: one sample,
one entry, value 60 (outside the clipping range). -/
def alC3 : Fin 1 → Fin 1 → ℝ := fun _ _ => 60

/-- C3 counterexample: for the input with entry 60 (absolute value above 50),
the non-leading coordinate of the returned full vector is 60, outside
`[-50, 50]` — the code concatenates the original `alpha`, not the clipped one. -/
theorem reconstruct_alpha_tail_unclipped_cex :
    |alC3 0 0| > 50 ∧ reconstruct_alpha mbC3 qwC3 alC3 0 1 ∉ Set.Icc (-50 : ℝ) 50 := by
  have h : reconstruct_alpha mbC3 qwC3 alC3 0 1 = 60 := by
    have h1 : (1 : Fin 2) = Fin.succ 0 := rfl
    rw [h1, reconstruct_alpha_succ_eq]
    rfl
  constructor
  · show |(60 : ℝ)| > 50
    rw [abs_of_pos (by norm_num)]
    norm_num
  · rw [h, Set.mem_Icc]
    norm_num

/-- C3 amended: the clipping to `[-50, 50]` is applied only inside the
exponential that defines `alpha_0`; every non-leading coordinate of the
returned full vector is the corresponding *original* input entry, unchanged. -/
theorem reconstruct_alpha_tail_original {ns N nq : ℕ} (m_b : Fin (N + 1) → Fin nq → ℝ)
    (q_w : Fin nq → ℝ) (alpha : Fin ns → Fin N → ℝ) (s : Fin ns) (i : Fin N) :
    reconstruct_alpha m_b q_w alpha s i.succ = alpha s i :=
  reconstruct_alpha_succ_eq m_b q_w alpha s i

/-! ### C4: eager finiteness checking -/

/-- C4: the checked completion step fails with a `NumericalInstabilityError`
exactly when some entry of its input batch is NaN or infinite, and the
divergence loss fails exactly when either of its two input batches has such an
entry; on all-finite batches no error is produced. -/
theorem checked_error_iff {ns N nq : ℕ} (m_b : Fin (N + 1) → Fin nq → ℝ)
    (q_w : Fin nq → ℝ) (x y : Fin ns → Fin N → FpVal) :
    ((∃ e, reconstruct_alpha_checked m_b q_w x = Except.error e) ↔
      ∃ s i, ¬ (x s i).isFinite)
    ∧ ((∃ e, kl_divergence_checked m_b q_w x y = Except.error e) ↔
      ((∃ s i, ¬ (x s i).isFinite) ∨ ∃ s i, ¬ (y s i).isFinite)) := by
  constructor
  · by_cases h : ∀ s i, (x s i).isFinite = true
    · simp only [reconstruct_alpha_checked, check_numerics, if_pos h]
      constructor
      · rintro ⟨e, he⟩
        exact Except.noConfusion he
      · rintro ⟨s, i, hsi⟩
        exact absurd (h s i) hsi
    · have h0 : ¬ ∀ s i, (x s i).isFinite = true := h
      push_neg at h
      simp only [reconstruct_alpha_checked, check_numerics, if_neg h0]
      exact ⟨fun _ => h, fun _ => ⟨_, rfl⟩⟩
  · by_cases hx : ∀ s i, (x s i).isFinite = true
    · by_cases hy : ∀ s i, (y s i).isFinite = true
      · simp only [kl_divergence_checked, check_numerics, if_pos hx, if_pos hy]
        constructor
        · rintro ⟨e, he⟩
          exact Except.noConfusion he
        · rintro (⟨s, i, hsi⟩ | ⟨s, i, hsi⟩)
          · exact absurd (hx s i) hsi
          · exact absurd (hy s i) hsi
      · have hy0 : ¬ ∀ s i, (y s i).isFinite = true := hy
        push_neg at hy
        simp only [kl_divergence_checked, check_numerics, if_pos hx, if_neg hy0]
        exact ⟨fun _ => Or.inr hy, fun _ => ⟨_, rfl⟩⟩
    · have hx0 : ¬ ∀ s i, (x s i).isFinite = true := hx
      push_neg at hx
      simp only [kl_divergence_checked, check_numerics, if_neg hx0]
      exact ⟨fun _ => Or.inl hx, fun _ => ⟨_, rfl⟩⟩

/-- Concrete basis for the C4 witness. -/
def mbC4 : Fin 2 → Fin 1 → ℝ := fun _ _ => 1

/-- Concrete quadrature weight for the C4 witness. -/
def qwC4 : Fin 1 → ℝ := fun _ => 1

/-- A one-sample batch holding a NaN, for the C4 witness. -/
def xNanC4 : Fin 1 → Fin 1 → FpVal := fun _ _ => FpVal.nan

/-- A one-sample all-finite batch, for the C4 witness. -/
def xFinC4 : Fin 1 → Fin 1 → FpVal := fun _ _ => FpVal.fin 0

/-- C4 witness: a batch containing a NaN makes the checked completion fail,
and an all-finite batch makes the checked divergence loss succeed. -/
theorem checked_error_iff_witness :
    (∃ e, reconstruct_alpha_checked mbC4 qwC4 xNanC4 = Except.error e)
    ∧ ¬ ∃ e, kl_divergence_checked mbC4 qwC4 xFinC4 xFinC4 = Except.error e :=
  ⟨(checked_error_iff mbC4 qwC4 xNanC4 xFinC4).1.mpr ⟨0, 0, by decide⟩,
    fun he =>
      ((checked_error_iff mbC4 qwC4 xFinC4 xFinC4).2.mp he).elim
        (fun ⟨_, _, hf⟩ => hf rfl) (fun ⟨_, _, hf⟩ => hf rfl)⟩

/-! ### C6: completing and reconstructing moments normalizes the zeroth moment

The moment-recovery map `reconstructU` lives in the `src.math` module, which is
not among the provided sources; it is modelled from the spec below. -/

/-- Modelled from the spec: `reconstructMoments` (the Reconstruction Engine
operation of spec §4.3, implemented by `reconstructU` in the absent `src.math`
module): for each sample row `a`,
`u_j = Σ_k weights[k] · basis[j,k] · exp(Σ_i a_i · basis[i,k])`. -/
noncomputable def reconstructMoments {ns M nq : ℕ} (alpha : Fin ns → Fin M → ℝ)
    (m_b : Fin M → Fin nq → ℝ) (q_w : Fin nq → ℝ) : Fin ns → Fin M → ℝ :=
  fun s j => ∑ k, q_w k * m_b j k * Real.exp (∑ i, alpha s i * m_b i k)

/-- Concrete basis for the C6 counterexample: rows `[1]` and `[1]`, one
quadrature point at node 1. -/
def mbC6 : Fin 2 → Fin 1 → ℝ := fun _ _ => 1

/-- Concrete quadrature weight for the C6 counterexample. -/
def qwC6 : Fin 1 → ℝ := fun _ => 1

/-- Concrete reduced multiplier batch for the C6 counterexample: entry 60,
finite but outside the clipping range. -/
def alC6 : Fin 1 → Fin 1 → ℝ := fun _ _ => 60

/-- C6 counterexample: with the finite reduced multiplier 60, completing and
reconstructing moments gives zeroth moment `exp 10` (at least 11), not 1:
`alpha_0` is computed from the clipped value 50 while the returned tail keeps
the original 60, so the normalization is broken beyond any tolerance. -/
theorem reconstructMoments_complete_cex :
    reconstructMoments (reconstruct_alpha mbC6 qwC6 alC6) mbC6 qwC6 0 0 = Real.exp 10
    ∧ (11 : ℝ) ≤ reconstructMoments (reconstruct_alpha mbC6 qwC6 alC6) mbC6 qwC6 0 0 := by
  have hclip : clipValue (-50) 50 (60 : ℝ) = 50 := by
    unfold clipValue
    rw [max_eq_left (by norm_num), min_eq_right (by norm_num)]
  have hval : reconstructMoments (reconstruct_alpha mbC6 qwC6 alC6) mbC6 qwC6 0 0
      = Real.exp 10 := by
    unfold reconstructMoments reconstruct_alpha mbC6 qwC6 alC6
    simp only [Fin.sum_univ_one, Fin.sum_univ_two, Fin.cons_zero, Fin.cons_succ, hclip,
      mul_one, one_mul]
    rw [Real.log_exp]
    norm_num
  exact ⟨hval, by
    rw [hval]
    have h10 := Real.add_one_le_exp (10 : ℝ)
    linarith⟩

/-- C6 amended: for every reduced multiplier whose entries lie within the
clipping range `[-50, 50]`, with a basis whose row 0 is constant 1, strictly
positive quadrature weights and at least one quadrature point, completing and
reconstructing moments yields zeroth moment exactly 1. -/
theorem reconstructMoments_complete_normalized {ns N nq : ℕ}
    (m_b : Fin (N + 1) → Fin nq → ℝ) (q_w : Fin nq → ℝ) (alpha : Fin ns → Fin N → ℝ)
    (s : Fin ns) (hnq : 0 < nq) (hrow : ∀ k, m_b 0 k = 1) (hw : ∀ k, 0 < q_w k)
    (hbound : ∀ i, |alpha s i| ≤ 50) :
    reconstructMoments (reconstruct_alpha m_b q_w alpha) m_b q_w s 0 = 1 := by
  have hclip : ∀ i, clipValue (-50) 50 (alpha s i) = alpha s i := by
    intro i
    obtain ⟨h1, h2⟩ := abs_le.mp (hbound i)
    unfold clipValue
    rw [max_eq_left h1, min_eq_left h2]
  set S := ∑ k, Real.exp (∑ i, alpha s i * m_b i.succ k) * q_w k with hS
  have hSpos : 0 < S := by
    have : Nonempty (Fin nq) := ⟨⟨0, hnq⟩⟩
    exact Finset.sum_pos (fun k _ => mul_pos (Real.exp_pos _) (hw k))
      Finset.univ_nonempty
  have hlead : ∀ k : Fin nq,
      (∑ i : Fin (N + 1), reconstruct_alpha m_b q_w alpha s i * m_b i k)
        = - Real.log S + ∑ i : Fin N, alpha s i * m_b i.succ k := by
    intro k
    rw [Fin.sum_univ_succ]
    unfold reconstruct_alpha
    simp only [Fin.cons_zero, Fin.cons_succ, hclip]
    rw [hrow k, mul_one, ← hS]
  unfold reconstructMoments
  calc (∑ k, q_w k * m_b 0 k *
        Real.exp (∑ i, reconstruct_alpha m_b q_w alpha s i * m_b i k))
      = ∑ k, Real.exp (- Real.log S) *
          (Real.exp (∑ i, alpha s i * m_b i.succ k) * q_w k) := by
        refine Finset.sum_congr rfl fun k _ => ?_
        rw [hlead k, hrow k, mul_one, Real.exp_add]
        ring
    _ = Real.exp (- Real.log S) * S := by rw [← Finset.mul_sum, ← hS]
    _ = 1 := by rw [Real.exp_neg, Real.exp_log hSpos, inv_mul_cancel₀ hSpos.ne']

/-- Concrete basis for the C6 witness. -/
def mbC6w : Fin 2 → Fin 1 → ℝ := fun _ _ => 1

/-- Concrete quadrature weight for the C6 witness. -/
def qwC6w : Fin 1 → ℝ := fun _ => 1

/-- Concrete reduced multiplier batch for the C6 witness: entry 0. -/
def alC6w : Fin 1 → Fin 1 → ℝ := fun _ _ => 0

/-- C6 witness: at the in-range multiplier 0 with unit basis row 0 and unit
weight, the round trip yields zeroth moment 1. -/
theorem reconstructMoments_complete_normalized_witness :
    (∀ i : Fin 1, |alC6w 0 i| ≤ 50)
    ∧ reconstructMoments (reconstruct_alpha mbC6w qwC6w alC6w) mbC6w qwC6w 0 0 = 1 :=
  ⟨fun _ => by norm_num [alC6w],
    reconstructMoments_complete_normalized mbC6w qwC6w alC6w 0 (by norm_num)
      (fun _ => rfl) (fun _ => by norm_num [qwC6w]) (fun _ => by norm_num [alC6w])⟩

/-! ## Error metrics from `src/experimental/errorAnalysis.py`

numpy arrays become lists (rows are samples, columns are features).  The final
division `absDiff / normalization` follows numpy 1-D broadcasting: defined when
the two lengths agree or one of them is 1, otherwise a broadcast error,
modelled as `none`. -/

/-- `np.absolute`, elementwise on a vector. -/
def absList (x : List ℝ) : List ℝ := x.map fun t => |t|

/-- Elementwise difference of two vectors. -/
def subList (x y : List ℝ) : List ℝ := List.zipWith (fun a b => a - b) x y

/-- `np.linalg.norm(·, ord=1)` of a vector. -/
def l1Norm (x : List ℝ) : ℝ := (absList x).sum

/-- `np.linalg.norm(x, axis=1, ord=1)`: L1 norm of each row. -/
def rowL1 (x : List (List ℝ)) : List ℝ := x.map l1Norm

/-- `np.linalg.norm(x, axis=0, ord=1)`: L1 norm of each column
(for a rectangular array). -/
def colL1 : List (List ℝ) → List ℝ
  | [] => []
  | [r] => absList r
  | r :: r2 :: rs => List.zipWith (fun a b => a + b) (absList r) (colL1 (r2 :: rs))

/-- `np.maximum`, elementwise on two vectors. -/
def npMaximum (x y : List ℝ) : List ℝ := List.zipWith max x y

/-- numpy division of two 1-D arrays with broadcasting: elementwise when the
lengths agree, scalar broadcast when one operand has length 1, and a broadcast
error (`none`) otherwise. -/
noncomputable def npDivide (a b : List ℝ) : Option (List ℝ) :=
  if a.length = b.length then some (List.zipWith (fun p q => p / q) a b)
  else if b.length = 1 then some (a.map fun p => p / b.headD 0)
  else if a.length = 1 then some (b.map fun q => a.headD 0 / q)
  else none

/-- `relDifferenceScalar(x1, x2, maxMode)`: elementwise
`|x1 - x2| / max(max(|x1|, |x2|), 1e-3)` in max mode, else `|x1 - x2| / |x1|`
with no guard on the denominator. -/
noncomputable def relDifferenceScalar (x1 x2 : List ℝ) (maxMode : Bool) : List ℝ :=
  if maxMode then
    List.zipWith (fun p q => p / q) (absList (subList x1 x2))
      ((npMaximum (absList x1) (absList x2)).map fun t => max t (1 / 1000))
  else
    List.zipWith (fun p q => p / q) (absList (subList x1 x2)) (absList x1)

/-- `relDifference(x1, x2, maxMode)`: per-row L1 norm of `x1 - x2`, divided by
`np.maximum` of the per-row L1 norms in max mode, else by the per-*column* L1
norms of `x1` (`axis=0`) — the final division broadcast like numpy. -/
noncomputable def relDifference (x1 x2 : List (List ℝ)) (maxMode : Bool) : Option (List ℝ) :=
  let absDiff := List.zipWith (fun r1 r2 => l1Norm (subList r1 r2)) x1 x2
  let normalizer := if maxMode then npMaximum (rowL1 x1) (rowL1 x2) else colL1 x1
  npDivide absDiff normalizer

/-- Helper: `getD` through `zipWith`, when the index is in bounds on both
sides. -/
lemma zipWith_getD {α β γ : Type} (f : α → β → γ) (a : List α) (b : List β) (i : ℕ)
    (ha : i < a.length) (hb : i < b.length) (da : α) (db : β) (dc : γ) :
    (List.zipWith f a b).getD i dc = f (a.getD i da) (b.getD i db) := by
  have hl : i < (List.zipWith f a b).length := by rw [List.length_zipWith]; omega
  rw [List.getD_eq_getElem _ _ hl, List.getD_eq_getElem _ _ ha, List.getD_eq_getElem _ _ hb,
    List.getElem_zipWith]

/-- Helper: `getD` through `map`, when the index is in bounds. -/
lemma map_getD {α β : Type} (f : α → β) (a : List α) (i : ℕ) (ha : i < a.length)
    (da : α) (db : β) : (a.map f).getD i db = f (a.getD i da) := by
  have hl : i < (a.map f).length := by simpa using ha
  rw [List.getD_eq_getElem _ _ hl, List.getD_eq_getElem _ _ ha, List.getElem_map]

/-- Helper: `getD` through `absList`, when the index is in bounds. -/
lemma absList_getD (a : List ℝ) (i : ℕ) (ha : i < a.length) :
    (absList a).getD i 0 = |a.getD i 0| := by
  rw [absList, map_getD _ _ _ ha 0 0]

/-- Helper: `getD` through `rowL1`, when the index is in bounds. -/
lemma rowL1_getD (x : List (List ℝ)) (s : ℕ) (hs : s < x.length) :
    (rowL1 x).getD s 0 = l1Norm (x.getD s []) := by
  rw [rowL1, map_getD _ _ _ hs [] 0]

/-- Helper: length of the column-norm vector of a nonempty rectangular array. -/
lemma colL1_length {N : ℕ} :
    ∀ x : List (List ℝ), x ≠ [] → (∀ r ∈ x, r.length = N) → (colL1 x).length = N
  | [], h, _ => absurd rfl h
  | [r], _, hr => by simp [colL1, absList, hr r (by simp)]
  | r :: r2 :: rs, _, hr => by
    rw [colL1, List.length_zipWith,
      colL1_length (r2 :: rs) (by simp) (fun q hq => hr q (List.mem_cons_of_mem _ hq))]
    simp [absList, hr r (by simp)]

/-- Helper: entry `j` of the column-norm vector is the sum of `|row[j]|` over
the rows, for a rectangular array. -/
lemma colL1_getD {N : ℕ} :
    ∀ x : List (List ℝ), x ≠ [] → (∀ r ∈ x, r.length = N) → ∀ j : ℕ, j < N →
      (colL1 x).getD j 0 = (x.map fun row => |row.getD j 0|).sum
  | [], h, _, _, _ => absurd rfl h
  | [r], _, hr, j, hj => by
    have hrl : j < r.length := by rw [hr r (by simp)]; exact hj
    simp only [colL1, List.map_cons, List.map_nil, List.sum_cons, List.sum_nil, absList]
    rw [map_getD _ _ _ hrl 0 0, add_zero]
  | r :: r2 :: rs, _, hr, j, hj => by
    have hrl : j < r.length := by rw [hr r (by simp)]; exact hj
    have htail : ∀ q ∈ r2 :: rs, q.length = N := fun q hq => hr q (List.mem_cons_of_mem _ hq)
    have h1 : j < (absList r).length := by simpa [absList] using hrl
    have h2 : j < (colL1 (r2 :: rs)).length := by
      rw [colL1_length (r2 :: rs) (by simp) htail]; exact hj
    rw [colL1, zipWith_getD _ _ _ _ h1 h2 0 0 0, colL1_getD (r2 :: rs) (by simp) htail j hj]
    simp only [absList, List.map_cons, List.sum_cons]
    rw [map_getD _ _ _ hrl 0 0]

/-- C7: for equal-length vectors, `relDifferenceScalar` is elementwise
`|x1[i] - x2[i]| / max(max(|x1[i]|, |x2[i]|), 1e-3)` in max mode, and
`|x1[i] - x2[i]| / |x1[i]|` otherwise — unconditionally, with no zero-guard on
the denominator in the second mode. -/
theorem relDifferenceScalar_formula (x1 x2 : List ℝ) (h : x1.length = x2.length)
    (i : ℕ) (hi : i < x1.length) :
    (relDifferenceScalar x1 x2 true).getD i 0
        = |x1.getD i 0 - x2.getD i 0| / max (max |x1.getD i 0| |x2.getD i 0|) (1 / 1000)
    ∧ (relDifferenceScalar x1 x2 false).getD i 0
        = |x1.getD i 0 - x2.getD i 0| / |x1.getD i 0| := by
  have hi2 : i < x2.length := h ▸ hi
  have hsub : i < (subList x1 x2).length := by
    rw [subList, List.length_zipWith]; omega
  have habs : i < (absList (subList x1 x2)).length := by simpa [absList] using hsub
  have ha1 : i < (absList x1).length := by simpa [absList] using hi
  have ha2 : i < (absList x2).length := by simpa [absList] using hi2
  have hmax : i < (npMaximum (absList x1) (absList x2)).length := by
    rw [npMaximum, List.length_zipWith]; omega
  have hnum : (absList (subList x1 x2)).getD i 0 = |x1.getD i 0 - x2.getD i 0| := by
    rw [absList, map_getD _ _ _ hsub 0 0, subList, zipWith_getD _ _ _ _ hi hi2 0 0 0]
  constructor
  · show (List.zipWith (fun p q => p / q) (absList (subList x1 x2))
        ((npMaximum (absList x1) (absList x2)).map fun t => max t (1 / 1000))).getD i 0 = _
    have hden : i < ((npMaximum (absList x1) (absList x2)).map
        fun t => max t (1 / 1000 : ℝ)).length := by simpa using hmax
    rw [zipWith_getD _ _ _ _ habs hden 0 0 0, hnum,
      map_getD _ _ _ hmax 0 0, npMaximum, zipWith_getD _ _ _ _ ha1 ha2 0 0 0,
      absList_getD _ _ hi, absList_getD _ _ hi2]
  · show (List.zipWith (fun p q => p / q) (absList (subList x1 x2)) (absList x1)).getD i 0 = _
    rw [zipWith_getD _ _ _ _ habs ha1 0 0 0, hnum, absList_getD _ _ hi]

/-- Concrete first argument for the C7 witness. -/
def x1C7 : List ℝ := [2, 0]

/-- Concrete second argument for the C7 witness. -/
def x2C7 : List ℝ := [3, 5]

/-- C7 witness: the elementwise formulas at index 0 of a concrete pair. -/
theorem relDifferenceScalar_formula_witness :
    (relDifferenceScalar x1C7 x2C7 true).getD 0 0
        = |x1C7.getD 0 0 - x2C7.getD 0 0|
          / max (max |x1C7.getD 0 0| |x2C7.getD 0 0|) (1 / 1000)
    ∧ (relDifferenceScalar x1C7 x2C7 false).getD 0 0
        = |x1C7.getD 0 0 - x2C7.getD 0 0| / |x1C7.getD 0 0| :=
  relDifferenceScalar_formula x1C7 x2C7 rfl 0 (by norm_num [x1C7])

/-- C8: per-sample numerator and the two normalization modes. In max mode
sample `s` is divided by `max` of the row L1 norms of `x1` and `x2` at row `s`;
without max mode (given that the row count equals the column count, so that the
division is defined) sample `s` is divided by the L1 norm of *column* `s` of
`x1`, i.e. a sum over the sample axis. -/
theorem relDifference_modes (x1 x2 : List (List ℝ)) (N : ℕ)
    (hlen : x1.length = x2.length)
    (h1 : ∀ r ∈ x1, r.length = N) (_h2 : ∀ r ∈ x2, r.length = N)
    (s : ℕ) (hs : s < x1.length) :
    (∃ res, relDifference x1 x2 true = some res ∧
        res.getD s 0 = l1Norm (subList (x1.getD s []) (x2.getD s []))
          / max (l1Norm (x1.getD s [])) (l1Norm (x2.getD s [])))
    ∧ (x1.length = N →
      ∃ res, relDifference x1 x2 false = some res ∧
        res.getD s 0 = l1Norm (subList (x1.getD s []) (x2.getD s []))
          / (x1.map fun row => |row.getD s 0|).sum) := by
  have hs2 : s < x2.length := hlen ▸ hs
  have habsDiff : (List.zipWith (fun r1 r2 => l1Norm (subList r1 r2)) x1 x2).length
      = x1.length := by rw [List.length_zipWith]; omega
  have hsd : s < (List.zipWith (fun r1 r2 => l1Norm (subList r1 r2)) x1 x2).length := by
    omega
  have hnum : (List.zipWith (fun r1 r2 => l1Norm (subList r1 r2)) x1 x2).getD s 0
      = l1Norm (subList (x1.getD s []) (x2.getD s [])) := by
    rw [zipWith_getD _ _ _ _ hs hs2 [] [] 0]
  constructor
  · have hr1 : s < (rowL1 x1).length := by simpa [rowL1] using hs
    have hr2 : s < (rowL1 x2).length := by simpa [rowL1] using hs2
    have hnl : (npMaximum (rowL1 x1) (rowL1 x2)).length = x1.length := by
      rw [npMaximum, List.length_zipWith, rowL1, rowL1, List.length_map, List.length_map]
      omega
    have hmaxs : s < (npMaximum (rowL1 x1) (rowL1 x2)).length := by omega
    have heq : relDifference x1 x2 true
        = some (List.zipWith (fun p q => p / q)
            (List.zipWith (fun r1 r2 => l1Norm (subList r1 r2)) x1 x2)
            (npMaximum (rowL1 x1) (rowL1 x2))) := by
      show npDivide (List.zipWith (fun r1 r2 => l1Norm (subList r1 r2)) x1 x2)
        (npMaximum (rowL1 x1) (rowL1 x2)) = _
      rw [npDivide, if_pos (by rw [habsDiff, hnl])]
    refine ⟨_, heq, ?_⟩
    rw [zipWith_getD _ _ _ _ hsd hmaxs 0 0 0, hnum, npMaximum,
      zipWith_getD _ _ _ _ hr1 hr2 0 0 0, rowL1_getD _ _ hs, rowL1_getD _ _ hs2]
  · intro hsq
    have hne : x1 ≠ [] := by
      intro hnil
      rw [hnil] at hs
      exact absurd hs (by simp)
    have hcl : (colL1 x1).length = N := colL1_length x1 hne h1
    have hcs : s < (colL1 x1).length := by omega
    have heq : relDifference x1 x2 false
        = some (List.zipWith (fun p q => p / q)
            (List.zipWith (fun r1 r2 => l1Norm (subList r1 r2)) x1 x2) (colL1 x1)) := by
      show npDivide (List.zipWith (fun r1 r2 => l1Norm (subList r1 r2)) x1 x2)
        (colL1 x1) = _
      rw [npDivide, if_pos (by rw [habsDiff, hcl, hsq])]
    refine ⟨_, heq, ?_⟩
    rw [zipWith_getD _ _ _ _ hsd hcs 0 0 0, hnum,
      colL1_getD x1 hne h1 s (by omega)]

/-- Concrete first argument for the C8 witness. -/
def x1C8 : List (List ℝ) := [[3, 4], [5, 6]]

/-- Concrete second argument for the C8 witness. -/
def x2C8 : List (List ℝ) := [[1, 2], [5, 8]]

/-- C8 witness: both normalization modes at sample 0 of a concrete square pair. -/
theorem relDifference_modes_witness :
    (∃ res, relDifference x1C8 x2C8 true = some res ∧
        res.getD 0 0 = l1Norm (subList (x1C8.getD 0 []) (x2C8.getD 0 []))
          / max (l1Norm (x1C8.getD 0 [])) (l1Norm (x2C8.getD 0 [])))
    ∧ (∃ res, relDifference x1C8 x2C8 false = some res ∧
        res.getD 0 0 = l1Norm (subList (x1C8.getD 0 []) (x2C8.getD 0 []))
          / (x1C8.map fun row => |row.getD 0 0|).sum) := by
  have h1 : ∀ r ∈ x1C8, r.length = 2 := by
    intro r hr
    simp only [x1C8, List.mem_cons, List.mem_singleton] at hr
    rcases hr with rfl | rfl | h
    · rfl
    · rfl
    · exact absurd h (List.not_mem_nil r)
  have h2 : ∀ r ∈ x2C8, r.length = 2 := by
    intro r hr
    simp only [x2C8, List.mem_cons, List.mem_singleton] at hr
    rcases hr with rfl | rfl | h
    · rfl
    · rfl
    · exact absurd h (List.not_mem_nil r)
  exact ⟨(relDifference_modes x1C8 x2C8 2 rfl h1 h2 0 (by norm_num [x1C8])).1,
    (relDifference_modes x1C8 x2C8 2 rfl h1 h2 0 (by norm_num [x1C8])).2 rfl⟩

/-- Concrete first argument for the C9 counterexample: 2 samples, 3 features. -/
def x1C9 : List (List ℝ) := [[1, 2, 3], [4, 5, 6]]

/-- Concrete second argument for the C9 counterexample. -/
def x2C9 : List (List ℝ) := [[1, 2, 3], [4, 5, 7]]

/-- C9 counterexample: with 2 samples and 3 features and `maxMode = False`,
the length-2 numerator cannot be broadcast against the length-3 column-norm
vector, so the call fails (numpy broadcast error) instead of returning one
scalar per sample. -/
theorem relDifference_not_per_sample_cex :
    relDifference x1C9 x2C9 false = none ∧ x1C9.length = 2 ∧ (x1C9.getD 0 []).length = 3 := by
  refine ⟨?_, rfl, rfl⟩
  rfl

/-- C9 amended: `relDifference` returns one scalar per sample in max mode for
every pair of equal-row-count arrays; without max mode it does so when the
row count of the rectangular input equals its column count (otherwise the
final division is a numpy broadcast error). -/
theorem relDifference_length_modes (x1 x2 : List (List ℝ)) (N : ℕ)
    (hlen : x1.length = x2.length) (h1 : ∀ r ∈ x1, r.length = N) :
    (∃ res, relDifference x1 x2 true = some res ∧ res.length = x1.length)
    ∧ (x1.length = N →
      ∃ res, relDifference x1 x2 false = some res ∧ res.length = x1.length) := by
  have habsDiff : (List.zipWith (fun r1 r2 => l1Norm (subList r1 r2)) x1 x2).length
      = x1.length := by rw [List.length_zipWith]; omega
  constructor
  · have hnl : (npMaximum (rowL1 x1) (rowL1 x2)).length = x1.length := by
      rw [npMaximum, List.length_zipWith, rowL1, rowL1, List.length_map, List.length_map]
      omega
    have heq : relDifference x1 x2 true
        = some (List.zipWith (fun p q => p / q)
            (List.zipWith (fun r1 r2 => l1Norm (subList r1 r2)) x1 x2)
            (npMaximum (rowL1 x1) (rowL1 x2))) := by
      show npDivide (List.zipWith (fun r1 r2 => l1Norm (subList r1 r2)) x1 x2)
        (npMaximum (rowL1 x1) (rowL1 x2)) = _
      rw [npDivide, if_pos (by rw [habsDiff, hnl])]
    refine ⟨_, heq, ?_⟩
    rw [List.length_zipWith]
    omega
  · intro hsq
    by_cases hne : x1 = []
    · subst hne
      have heq : relDifference ([] : List (List ℝ)) x2 false = some [] := by
        show npDivide (List.zipWith (fun r1 r2 => l1Norm (subList r1 r2)) [] x2)
          (colL1 []) = _
        rw [npDivide]
        simp [colL1]
      exact ⟨[], heq, rfl⟩
    · have hcl : (colL1 x1).length = N := colL1_length x1 hne h1
      have heq : relDifference x1 x2 false
          = some (List.zipWith (fun p q => p / q)
              (List.zipWith (fun r1 r2 => l1Norm (subList r1 r2)) x1 x2) (colL1 x1)) := by
        show npDivide (List.zipWith (fun r1 r2 => l1Norm (subList r1 r2)) x1 x2)
          (colL1 x1) = _
        rw [npDivide, if_pos (by rw [habsDiff, hcl, hsq])]
      refine ⟨_, heq, ?_⟩
      rw [List.length_zipWith]
      omega

/-- Concrete first argument for the C9 witness: a square (2 × 2) array. -/
def x1C9w : List (List ℝ) := [[1, 2], [3, 4]]

/-- Concrete second argument for the C9 witness. -/
def x2C9w : List (List ℝ) := [[0, 2], [3, 5]]

/-- C9 witness: both modes return a length-2 result on a concrete square pair. -/
theorem relDifference_length_modes_witness :
    (∃ res, relDifference x1C9w x2C9w true = some res ∧ res.length = x1C9w.length)
    ∧ ∃ res, relDifference x1C9w x2C9w false = some res ∧ res.length = x1C9w.length := by
  have h1 : ∀ r ∈ x1C9w, r.length = 2 := by
    intro r hr
    simp only [x1C9w, List.mem_cons, List.mem_singleton] at hr
    rcases hr with rfl | rfl | h
    · rfl
    · rfl
    · exact absurd h (List.not_mem_nil r)
  exact ⟨(relDifference_length_modes x1C9w x2C9w 2 rfl h1).1,
    (relDifference_length_modes x1C9w x2C9w 2 rfl h1).2 rfl⟩

/-! ## `initNeuralClosure` from `src/python/neuralClosures/configModel.py`

The network classes themselves are out-of-scope collaborators; only the
constructor call (degree and folder) is recorded.  Python's exception flow
becomes `Except`; the source builds `ValueError(...)` objects without `raise`,
so those objects are collected in a discard list instead of ever becoming the
result.  A branch that neither raises nor assigns `neuralClosureModel` makes
the final `return` fail with an `UnboundLocalError`. -/

/-- A constructed network model: which `neuralMKi` class was instantiated,
with its `maxDegree_N` and `folderName` arguments. -/
inductive NeuralModel where
  | neuralMK1 (maxDegree_N : ℤ) (folderName : String)
  | neuralMK2 (maxDegree_N : ℤ) (folderName : String)
  | neuralMK3 (maxDegree_N : ℤ) (folderName : String)
  | neuralMK4 (maxDegree_N : ℤ) (folderName : String)
  | neuralMK5 (maxDegree_N : ℤ) (folderName : String)
  | neuralMK6 (maxDegree_N : ℤ) (folderName : String)
  | neuralMK7 (maxDegree_N : ℤ) (folderName : String)

/-- A Python exception that `initNeuralClosure` can produce or construct. -/
inductive PyExc where
  | valueError (msg : String)
  | unboundLocalError (name : String)

/-- `initNeuralClosure(modelNumber, maxDegree_N, folderName)`: first component
is the outcome of the call (the returned model, or the exception the call dies
with); second component is the list of exception objects the source constructs
without raising them. -/
def initNeuralClosure (modelNumber : ℤ) (maxDegree_N : ℤ) (folderName : String) :
    Except PyExc NeuralModel × List PyExc :=
  if maxDegree_N < 0 then
    (Except.error (PyExc.unboundLocalError ("neuralClosureModel")),
      [PyExc.valueError ("Negative number of basis functions not possible")])
  else if modelNumber = 1 then
    (Except.ok (NeuralModel.neuralMK1 maxDegree_N folderName), [])
  else if modelNumber = 2 then
    (Except.ok (NeuralModel.neuralMK2 maxDegree_N folderName),
      if maxDegree_N > 0 then
        [PyExc.valueError
          ("Model MK1 is constructed only for maximum degree 0 of the spherical harmonics")]
      else [])
  else if modelNumber = 3 then
    (Except.ok (NeuralModel.neuralMK3 maxDegree_N folderName),
      if maxDegree_N > 1 then
        [PyExc.valueError
          ("Model MK3 is constructed only for maximum degree 1 of the spherical harmonics (at the moment)")]
      else [])
  else if modelNumber = 4 then
    (Except.ok (NeuralModel.neuralMK4 maxDegree_N folderName),
      if maxDegree_N > 1 then
        [PyExc.valueError
          ("Model MK4 is constructed only for maximum degree 1 of the spherical monomials (at the moment)")]
      else [])
  else if modelNumber = 5 then
    (Except.ok (NeuralModel.neuralMK5 maxDegree_N folderName),
      if maxDegree_N > 1 then
        [PyExc.valueError
          ("Model MK5 is constructed only for maximum degree 1 of the spherical monomials (at the moment)")]
      else [])
  else if modelNumber = 6 then
    (Except.ok (NeuralModel.neuralMK6 maxDegree_N folderName),
      if maxDegree_N > 1 then
        [PyExc.valueError
          ("Model MK6 is constructed only for maximum degree 1 of the spherical monomials (at the moment)")]
      else [])
  else if modelNumber = 7 then
    (Except.ok (NeuralModel.neuralMK7 maxDegree_N folderName),
      if maxDegree_N > 1 then
        [PyExc.valueError
          ("Model MK7 is constructed only for maximum degree 1 of the spherical monomials (at the moment)")]
      else [])
  else
    (Except.error (PyExc.unboundLocalError ("neuralClosureModel")),
      [PyExc.valueError ("No network fits your preferences!")])

/-- C10: for every model number, a negative `maxDegree_N` never raises a
`ValueError` — the `ValueError` object is only constructed and discarded —
and the call instead skips every model-construction branch and dies at the
`return` with an unbound local variable. -/
theorem initNeuralClosure_negative_degree (modelNumber maxDegree_N : ℤ)
    (folderName : String) (h : maxDegree_N < 0) :
    (initNeuralClosure modelNumber maxDegree_N folderName).1
        = Except.error (PyExc.unboundLocalError ("neuralClosureModel"))
    ∧ (∀ msg, (initNeuralClosure modelNumber maxDegree_N folderName).1
        ≠ Except.error (PyExc.valueError msg))
    ∧ (initNeuralClosure modelNumber maxDegree_N folderName).2
        = [PyExc.valueError ("Negative number of basis functions not possible")]
    ∧ (∀ mn d fn msg, (initNeuralClosure mn d fn).1
        ≠ Except.error (PyExc.valueError msg)) := by
  refine ⟨?_, ?_, ?_, ?_⟩
  · rw [initNeuralClosure, if_pos h]
  · rw [initNeuralClosure, if_pos h]
    intro msg hmsg
    exact PyExc.noConfusion (Except.error.inj hmsg)
  · rw [initNeuralClosure, if_pos h]
  · intro mn d fn msg
    rw [initNeuralClosure]
    split_ifs <;> simp

/-- C10 witness: the negative-degree behaviour at `modelNumber = 1`,
`maxDegree_N = -1`. -/
theorem initNeuralClosure_negative_degree_witness :
    (initNeuralClosure 1 (-1) ("testFolder")).1
        = Except.error (PyExc.unboundLocalError ("neuralClosureModel"))
    ∧ (∀ msg, (initNeuralClosure 1 (-1) ("testFolder")).1
        ≠ Except.error (PyExc.valueError msg))
    ∧ (initNeuralClosure 1 (-1) ("testFolder")).2
        = [PyExc.valueError ("Negative number of basis functions not possible")]
    ∧ (∀ mn d fn msg, (initNeuralClosure mn d fn).1
        ≠ Except.error (PyExc.valueError msg)) :=
  initNeuralClosure_negative_degree 1 (-1) ("testFolder") (by norm_num)

end NeuralEntropyClosures
